import Mathlib

/-!
Verification of the yamlwrap text-transformation core
(`src/yamlwrap/__init__.py`, with the width-handling variant from
`yamldoc/util/file.py`).

The module's operations are `unwrap`, `wrap` and `rewrap`, all driven by
two compiled regular expressions:

* `_WRAP_BREAK` — identifies a line break introduced by automatic
  wrapping; `unwrap` is `_WRAP_BREAK.sub(r'\1 ', string)`.
* `_PARAGRAPH` — identifies a paragraph (lead-in plus contents); `wrap`
  is `_PARAGRAPH.sub(replace, string)` where `replace` re-flows the
  contents with Python's `textwrap.TextWrapper` (configured with
  `break_long_words=False`, `break_on_hyphens=False`) and re-appends a
  Markdown soft-break marker.

The regular expressions are embedded below as executable scanners over
`List Char`, with each condition annotated with the regex fragment it
translates.  `TextWrapper.fill` (CPython `textwrap.py`) is embedded as
`fill`.  Python `re` scans left to right trying a match at every
position; both regexes only ever produce non-overlapping matches, and
each successful match consumes at least one character, so the scan is a
simple recursion.
-/

/-- Python regex `\s` on `str` patterns: the Unicode whitespace set
(`str.isspace`).  Covers the ASCII whitespace characters, the C1/format
separators and the Unicode space separators. -/
def isPySpace (c : Char) : Bool :=
  c = ' ' || c = '\t' || c = '\n' || c = '\x0b' || c = '\x0c' || c = '\r' ||
  c = '\x1c' || c = '\x1d' || c = '\x1e' || c = '\x1f' ||
  c = '\x85' || c = '\xa0' || c = ' ' ||
  (0x2000 ≤ c.val && c.val ≤ 0x200a) ||
  c = ' ' || c = ' ' || c = ' ' || c = ' ' || c = '　'

/-! ## The unwrapper: `_WRAP_BREAK.sub(r'\1 ', string)`

```
(?<=[^>\n ])     # lookbehind: any character but ">", newline, space
((>)?)           # groups 1 and 2: a possible ">"
\n               # the focal line break
(?(2)(?!\s*<))   # if ">" matched: no "<" after optional whitespace
(?!(?:\*|\d\.|>)\s)  # next line must not open a list item or quote
(?=\S)           # require some content on the following line
```

The replacement keeps the optional `>` and turns the newline into a
single space. -/

/-- Lookbehind `(?<=[^>\n ])` fails: the preceding character is `>`,
a newline or a space. -/
def prevBlocks (c : Char) : Bool := c = '>' || c = '\n' || c = ' '

/-- The lookbehind holds for the character (if any) before the match. -/
def prevOkB : Option Char → Bool
  | none => false
  | some c => !(prevBlocks c)

/-- Whether a list starts with a `\s` character. -/
def headSpace : List Char → Bool
  | c :: _ => isPySpace c
  | [] => false

/-- Lookahead body `(?:\*|\d\.|>)\s`: the text opens a bullet item,
a numbered item (one digit and a dot) or a quote marker, followed by a
whitespace character. -/
def listLeadIn : List Char → Bool
  | [] => false
  | c :: u =>
    if c = '*' || c = '>' then headSpace u
    else if c.isDigit then
      match u with
      | d :: v => d = '.' && headSpace v
      | [] => false
    else false

/-- Combined trailing conditions `(?!(?:\*|\d\.|>)\s)(?=\S)` of
`_WRAP_BREAK`, applied to the text after the focal newline. -/
def lookOk (t : List Char) : Bool :=
  match t with
  | [] => false
  | c :: _ => !(isPySpace c) && !(listLeadIn t)

/-- Conditional lookahead `(?!\s*<)` fails: a run of whitespace
followed by `<`. -/
def wsThenLt : List Char → Bool
  | [] => false
  | c :: t => if c = '<' then true else if isPySpace c then wsThenLt t else false

/-- The scan of `_WRAP_BREAK.sub(r'\1 ', string)`.  `prev` is the
character before the current position (`none` at the start of the
string).  A match consumes `>\n` (replaced by `> `) or `\n` (replaced
by a space); after a failed attempt the scan advances one character.
A match starting at the newline of a failed `>`-attempt is impossible
because its lookbehind sees the `>`. -/
def unwrapAux : Option Char → List Char → List Char
  | _, [] => []
  | prev, '>' :: '\n' :: t =>
    if prevOkB prev && !(wsThenLt t) && lookOk t
    then '>' :: ' ' :: unwrapAux (some '\n') t
    else '>' :: '\n' :: unwrapAux (some '\n') t
  | prev, '\n' :: t =>
    if prevOkB prev && lookOk t
    then ' ' :: unwrapAux (some '\n') t
    else '\n' :: unwrapAux (some '\n') t
  | _, c :: t => c :: unwrapAux (some c) t

/-- `unwrap(string)`: collapse wrap-introduced line breaks into single
spaces (`src/yamlwrap/__init__.py`, `unwrap`). -/
def unwrap (l : List Char) : List Char := unwrapAux none l

/-! ## The paragraph segmenter: `_PARAGRAPH`

As written in the source (comments abbreviated; the line between
options 4 and 5 is reproduced exactly, because it has no `#`):

```
(                # group 1: lead-in
(?:^|\n)         # Option 1: single break for what looks like HTML.
(\s*<)           # group 2, overlapping group 1
|
^                # Option 2: start of record.
\n?              # An initial blank line will be respected.
|
\n\n             # Option 3: a Markdown paragraph break.
|
\n(?=> .)        # Option 4: quoted paragraph beginning with "> ".
|                    For some reason, “\S” does not work in place of “.”.
\n(?=>\n)        # Option 5: empty line inside a quote block.
)
(                # group 3: contents
(?:
(?(2)(?!>(?:\n|$))   # HTML contents stop before ">" at a break or end
|
(?!\n\n|\n?$))       # (vacuous alongside ".", which excludes newlines)
.)+              # "." does not match a newline (no DOTALL flag)
)
```

The only flag is `re.VERBOSE`, which has three consequences for the
compiled pattern:

* `^` and `$` keep their single-string meaning and `.` never matches
  a newline, so contents always stop at the first newline; the
  `$`-involving lookahead can never veto a character that `.` accepts,
  and only the HTML stop rule is live.
* Unescaped whitespace outside character classes is stripped, so the
  space in option 4 is not part of the pattern: option 4 compiles to
  `\n(?=>.)` — a newline followed by `>` and any one non-newline
  character.
* Only `#` starts a comment.  The explanatory line between options 4
  and 5 has none, so its non-whitespace characters are pattern text
  belonging to the fifth alternative, which compiles to
  `Forsomereason,“\S”doesnotworkinplaceof“.”.\n(?=>\n)` — a long
  literal run that realistic input never contains. -/

/-- Contents of a non-HTML paragraph starting here: the run of
characters before the first newline (`.` with the vacuous non-HTML
lookahead). -/
def nlContents (l : List Char) : List Char := l.takeWhile fun c => !(c = '\n')

/-- What remains of the string after `nlContents`. -/
def nlRest (l : List Char) : List Char := l.dropWhile fun c => !(c = '\n')

/-- The greedy `\s*` run of lead-in option 1 (greediness is exact
because the following `<` is not a whitespace character). -/
def wsRun (l : List Char) : List Char := l.takeWhile isPySpace

/-- What remains of the string after `wsRun`. -/
def wsRest (l : List Char) : List Char := l.dropWhile isPySpace

/-- Contents of an HTML paragraph starting here: like `nlContents`,
but `(?!>(?:\n|$))` also stops before a `>` that is followed by a
newline or the end of the string (`$` matches at the end and before a
final newline, so `>(?:\n|$)` holds exactly when the text after the
`>` is empty or starts with a newline). -/
def htmlContents : List Char → List Char
  | [] => []
  | c :: t =>
    if c = '\n' then []
    else if c = '>' then
      if t.isEmpty || t.head? = some '\n' then []
      else '>' :: htmlContents t
    else c :: htmlContents t

/-- What remains of the string after `htmlContents`. -/
def htmlRest : List Char → List Char
  | [] => []
  | c :: t =>
    if c = '\n' then c :: t
    else if c = '>' then
      if t.isEmpty || t.head? = some '\n' then c :: t
      else htmlRest t
    else htmlRest t

/-- A matched lead-in with its contents: lead-in text, whether group 2
participated (HTML), the contents (group 3), and the rest of the
string after the match. -/
abbrev ParaMatch := List Char × Bool × List Char × List Char

/-- Lead-in option 1, `(?:^|\n)(\s*<)` with HTML contents.  At the
start of the string the whitespace run may also absorb a leading
newline, which is exactly what the `^`-alternative followed by the
greedy `\s*` does; away from the start the first character must itself
be a newline (then part of the `\s*` run as written here, which
consumes the same span of characters).  If the contents would be empty
the alternative fails as a whole: no shorter `\s*` can reach the
`<`. -/
def mOpt1 (atStart : Bool) (l : List Char) : Option ParaMatch :=
  if atStart || l.head? == some '\n' then
    match wsRest l with
    | '<' :: r =>
      if (htmlContents r).isEmpty then none
      else some (wsRun l ++ ['<'], true, htmlContents r, htmlRest r)
    | _ => none
  else none

/-- Lead-in option 2, `^\n?`.  The greedy `\n?` consumes an initial
newline when possible; when the contents after it would be empty, the
backtracked empty `\n?` also fails, because the contents would then
begin at that very newline. -/
def mOpt2 (atStart : Bool) (l : List Char) : Option ParaMatch :=
  if atStart then
    match l with
    | '\n' :: t =>
      if (nlContents t).isEmpty then none
      else some (['\n'], false, nlContents t, nlRest t)
    | _ =>
      if (nlContents l).isEmpty then none
      else some ([], false, nlContents l, nlRest l)
  else none

/-- Lead-in option 3, `\n\n`: the normal Markdown paragraph break. -/
def mOpt3 (l : List Char) : Option ParaMatch :=
  match l with
  | '\n' :: '\n' :: t =>
    if (nlContents t).isEmpty then none
    else some (['\n', '\n'], false, nlContents t, nlRest t)
  | _ => none

/-- Lead-in option 4, written `\n(?=> .)` in the source.  `re.VERBOSE`
strips the unescaped space inside the lookahead, so the compiled form
is `\n(?=>.)`: a `>` followed by any one non-newline character — this
is why a `> ` quote marker is matched (the `.` matches its space), and
also why e.g. `>b` after a single break opens a paragraph.  Only the
newline is consumed; the contents start at the `>`. -/
def mOpt4 (l : List Char) : Option ParaMatch :=
  match l with
  | '\n' :: '>' :: c :: u =>
    if c = '\n' then none
    else some (['\n'], false, nlContents ('>' :: c :: u), nlRest ('>' :: c :: u))
  | _ => none

/-- Strip an expected literal run of characters from the front of a
list, returning the remainder on success. -/
def stripLit : List Char → List Char → Option (List Char)
  | [], l => some l
  | _ :: _, [] => none
  | p :: ps, c :: cs => if c = p then stripLit ps cs else none

/-- First literal run of the compiled fifth alternative of
`_PARAGRAPH` (see `mOpt5`). -/
def optFiveLit1 : List Char := "Forsomereason,“".data

/-- Second literal run of the compiled fifth alternative of
`_PARAGRAPH` (see `mOpt5`). -/
def optFiveLit2 : List Char := "”doesnotworkinplaceof“".data

/-- Lead-in option 5.  The explanatory line between options 4 and 5
of the source pattern has no `#`, so under `re.VERBOSE` its
non-whitespace characters are pattern text prefixed to this
alternative.  The compiled form is: the literal run
`Forsomereason,“`, one `\S` character, the literal run
`”doesnotworkinplaceof“`, one `.` character, a literal `”`, one more
`.` character, and only then `\n(?=>\n)`.  The final newline ends the
consumed lead-in; the contents are the lone `>` the lookahead saw.
The intended plain `\n(?=>\n)` alternative is therefore dead on any
input that lacks the literal runs. -/
def mOpt5 (l : List Char) : Option ParaMatch :=
  match stripLit optFiveLit1 l with
  | none => none
  | some [] => none
  | some (c1 :: l2) =>
    if isPySpace c1 then none
    else
      match stripLit optFiveLit2 l2 with
      | none => none
      | some (c2 :: d :: c3 :: e :: rest) =>
        if c2 ≠ '\n' ∧ d = '”' ∧ c3 ≠ '\n' ∧ e = '\n' ∧
            rest.head? = some '>' ∧ (rest.drop 1).head? = some '\n' then
          some (optFiveLit1 ++ [c1] ++ optFiveLit2 ++ [c2, d, c3, e],
                false, nlContents rest, nlRest rest)
        else none
      | some _ => none

/-- A `_PARAGRAPH` match attempt at the current position, trying the
lead-in alternatives in the order of the pattern.  A failed
alternative (including failure of the `+` on the contents) falls
through to the next one. -/
def matchAt (atStart : Bool) (l : List Char) : Option ParaMatch :=
  mOpt1 atStart l <|> mOpt2 atStart l <|> mOpt3 l <|> mOpt4 l <|> mOpt5 l

/-- One piece of the string as `_PARAGRAPH.sub` sees it: either a
character left untouched between matches, or one match (lead-in,
HTML flag, contents). -/
inductive Seg : Type
  | plain : List Char → Seg
  | para : List Char → Bool → List Char → Seg
deriving DecidableEq, Repr

/-- The text a segment covers in the input string. -/
def origSeg : Seg → List Char
  | .plain t => t
  | .para lead _ body => lead ++ body

/-- The left-to-right scan of `_PARAGRAPH.sub`: try a match at every
position; on success continue after the match, otherwise emit one
character and advance.  `fuel` only forces termination; every step
consumes at least one character, so `l.length + 1` is always enough. -/
def segScan : Nat → Bool → List Char → List Seg
  | 0, _, l => l.map (fun c => Seg.plain [c])
  | _ + 1, _, [] => []
  | fuel + 1, atStart, c :: t =>
    match matchAt atStart (c :: t) with
    | some (lead, h, body, rest) => Seg.para lead h body :: segScan fuel false rest
    | none => Seg.plain [c] :: segScan fuel false t

/-- The segmentation of a string by `_PARAGRAPH.sub`. -/
def segments (l : List Char) : List Seg := segScan (l.length + 1) true l

/-! ## The wrapper: `textwrap.TextWrapper` with
`break_long_words=False`, `break_on_hyphens=False`, and the default
`expand_tabs=True`, `replace_whitespace=True`, `drop_whitespace=True`,
`initial_indent=''`, `subsequent_indent=''`, `max_lines=None`. -/

/-- CPython `str.expandtabs(8)`: replace each tab with spaces up to
the next multiple of eight columns; the column counter resets after a
newline or carriage return. -/
def expandTabs : Nat → List Char → List Char
  | _, [] => []
  | col, '\t' :: t =>
    let k := 8 - col % 8
    List.replicate k ' ' ++ expandTabs (col + k) t
  | _, '\n' :: t => '\n' :: expandTabs 0 t
  | _, '\r' :: t => '\r' :: expandTabs 0 t
  | col, c :: t => c :: expandTabs (col + 1) t

/-- `TextWrapper._munge_whitespace`: expand tabs, then translate each
of `\t\n\x0b\x0c\r` to a plain space. -/
def munge (l : List Char) : List Char :=
  (expandTabs 0 l).map fun c =>
    if c = '\t' || c = '\n' || c = '\x0b' || c = '\x0c' || c = '\r' then ' ' else c

/-- Helper for `chunks`: extend the current run while the `\s` class
of the characters stays the same. -/
def chunksAux (ws : Bool) (cur : List Char) : List Char → List (List Char)
  | [] => [cur.reverse]
  | c :: t =>
    if isPySpace c = ws then chunksAux ws (c :: cur) t
    else cur.reverse :: chunksAux (isPySpace c) [c] t

/-- `TextWrapper._split` with `break_on_hyphens=False`: split on
`(\s+)`, keeping the separators, and drop empty pieces — i.e. the
maximal runs of whitespace and non-whitespace characters. -/
def chunks : List Char → List (List Char)
  | [] => []
  | c :: t => chunksAux (isPySpace c) [c] t

/-- `chunk.strip() == ''`: the chunk is whitespace only. -/
def isWsChunk (ch : List Char) : Bool := ch.all isPySpace

/-- The inner `while` of `TextWrapper._wrap_chunks`: move chunks onto
the current line while they fit within the width. -/
def greedyTake (width curLen : Nat) : List (List Char) → List (List Char) × List (List Char)
  | [] => ([], [])
  | c :: t =>
    if curLen + c.length ≤ width then
      let (a, b) := greedyTake width (curLen + c.length) t
      (c :: a, b)
    else ([], c :: t)

/-- Drop a final whitespace chunk from the current line
(`drop_whitespace` on the tail of `cur_line`). -/
def dropTrailingWs (cur : List (List Char)) : List (List Char) :=
  match cur.getLast? with
  | some ch => if isWsChunk ch then cur.dropLast else cur
  | none => cur

/-- The outer loop of `TextWrapper._wrap_chunks`.  Per iteration: drop
a leading whitespace chunk when some line was already produced; fill
the line greedily; a chunk longer than the width is placed alone on a
line when the current line is empty (`_handle_long_word` with
`break_long_words=False`); drop a trailing whitespace chunk; emit the
line if anything is left.  `haveLines` mirrors `lines` being
non-empty; `fuel` only forces termination (every iteration consumes at
least one chunk). -/
def wrapChunksAux : Nat → Nat → Bool → List (List Char) → List (List Char)
  | 0, _, _, _ => []
  | _ + 1, _, _, [] => []
  | fuel + 1, width, haveLines, c :: cs =>
    match (if haveLines && isWsChunk c then cs else c :: cs) with
    | [] => []
    | c1 :: cs1 =>
      if c1.length ≤ width then
        let (taken, rest) := greedyTake width c1.length cs1
        let cur := dropTrailingWs (c1 :: taken)
        if cur.isEmpty then wrapChunksAux fuel width haveLines rest
        else cur.flatten :: wrapChunksAux fuel width true rest
      else
        if isWsChunk c1 then wrapChunksAux fuel width haveLines cs1
        else c1 :: wrapChunksAux fuel width true cs1

/-- `TextWrapper.fill(body)`: wrap the munged, chunked text and join
the lines with newlines. -/
def fill (width : Nat) (body : List Char) : List Char :=
  let cs := chunks (munge body)
  List.intercalate ['\n'] (wrapChunksAux (cs.length + 1) width false cs)

/-- `re.search(r'((  )?)$', body).group(1)`: the leftmost match ends
the string (ignoring one final newline, where `$` also matches), and
prefers two trailing spaces over the empty alternative.  Contents of a
paragraph never contain a newline, but the rule is embedded in
full. -/
def sbSuffix (body : List Char) : List Char :=
  let e := if body.getLast? = some '\n' then body.dropLast else body
  match e.reverse with
  | ' ' :: ' ' :: _ => [' ', ' ']
  | _ => []

/-- The replacement for one `_PARAGRAPH` match
(`replace` inside `wrap`): lead-in, `wrapper.fill` of the contents,
then the protected soft-break marker. -/
def wrapSeg (w : Nat) : Seg → List Char
  | .plain t => t
  | .para lead _ body => lead ++ fill w body ++ sbSuffix body

/-- `wrap(string)` at wrapper width `w`
(`src/yamlwrap/__init__.py`, `wrap`). -/
def wrap (w : Nat) (l : List Char) : List Char :=
  ((segments l).map (wrapSeg w)).flatten

/-- `_rewrap`: one full pass of unwrapping and wrapping. -/
def rewrapOnce (w : Nat) (l : List Char) : List Char := wrap w (unwrap l)

/-- `rewrap(string)`: skip the second pass when the first had no
impact (`src/yamlwrap/__init__.py`, `rewrap`). -/
def rewrap (w : Nat) (l : List Char) : List Char :=
  let n := rewrapOnce w l
  if l = n then l else rewrapOnce w n

/-! ## Width handling of `yamldoc/util/file.py`

There `wrap_paragraphs(string, width=None)` substitutes each match via
`_wrap`, which runs `_WRAPPER.width = width or 70` and then
`_WRAPPER.fill`.  Python truthiness makes `0 or 70` equal to `70`, but
a negative width stays negative, and `TextWrapper._wrap_chunks` then
raises `ValueError("invalid width ...")` — once per match, so a string
without any paragraph raises nothing.  Errors are modelled with
`Except Unit`. -/

/-- `_WRAPPER.fill` after `_WRAPPER.width = width or 70`:
`_wrap_chunks` raises `ValueError` when the effective width is not
positive. -/
def fillE (width : Int) (body : List Char) : Except Unit (List Char) :=
  let eff := if width = 0 then 70 else width
  if eff ≤ 0 then .error () else .ok (fill eff.toNat body)

/-- The replacement `_wrap` of `yamldoc/util/file.py` for one
segment. -/
def wrapSegE (width : Int) : Seg → Except Unit (List Char)
  | .plain t => .ok t
  | .para lead _ body => (fillE width body).map fun f => lead ++ f ++ sbSuffix body

/-- Left-to-right substitution over the segments; the first raising
replacement aborts the whole `re.sub`. -/
def wrapSegsE (width : Int) : List Seg → Except Unit (List Char)
  | [] => .ok []
  | s :: t =>
    match wrapSegE width s with
    | .error e => .error e
    | .ok x =>
      match wrapSegsE width t with
      | .error e => .error e
      | .ok y => .ok (x ++ y)

/-- `wrap_paragraphs(string, width=w)` of `yamldoc/util/file.py`. -/
def wrapWidth (width : Int) (l : List Char) : Except Unit (List Char) :=
  wrapSegsE width (segments l)

/-- Whether a segmentation contains at least one paragraph match. -/
def hasPara (segs : List Seg) : Bool :=
  segs.any fun s => match s with | .para _ _ _ => true | .plain _ => false

/-! ## Derived views of the segmentation used to state claims -/

/-- Each segment paired with the original text that follows it. -/
def restsAfter : List Seg → List (Seg × List Char)
  | [] => []
  | s :: t => (s, (t.map origSeg).flatten) :: restsAfter t

/-- Claim C3 as stated, at one input: every non-HTML paragraph span
extends to the next blank line (two consecutive newlines) or to the
end of the string. -/
def spansReachBlank (l : List Char) : Bool :=
  (restsAfter (segments l)).all fun p =>
    match p.1 with
    | Seg.para _ false _ => p.2.isEmpty || p.2.take 2 == ['\n', '\n']
    | _ => true

/-! ## Relations used to reason about `unwrap`

`unwrap` only ever replaces a newline by a space, so each output
character is either the input character or a space standing for a
newline; the relations below capture that, for characters and for the
scan state (the character before the current position). -/

/-- Relation between an input character and the corresponding output
character of `unwrap`: unchanged, or a newline turned into a space. -/
def relC (a b : Char) : Prop := b = a ∨ (a = '\n' ∧ b = ' ')

/-- `relC` lifted to the optional preceding character of the scan. -/
def relCOpt : Option Char → Option Char → Prop
  | none, none => True
  | some a, some b => relC a b
  | _, _ => False

/-! ## Concrete inputs used by the claims

`wEnum` is the wrapped form of the expected-failure test
`test_numbered_list_unindented_starting_short` (width 6); `wQuote` the
wrapped form of `test_quote_block_oneparagraph` (width 3); `wHtml` the
minimal HTML block of `test_block_html_minimal`. -/

/-- Wrapped numbered list, short item before a longer wrapped item. -/
def wEnum : List Char := "a a\n\n2. b\n3. b b\nb\n\nc c\n".data

/-- Wrapped two-word paragraph. -/
def wPair : List Char := "aa\nbb".data

/-- Wrapped quote-block paragraph. -/
def wQuote : List Char := "a a\n\n> b\nb\n\nc c".data

/-- Minimal HTML block. -/
def wHtml : List Char := "<a>\n</a>".data

/-- HTML paragraph whose re-flow moves a `>` to the end of a line. -/
def pGtHtml : List Char := "<aa > bbb".data

deriving instance DecidableEq for Except

/-! ## Theorems for the claims -/

/-- C4.  `rewrap` computes one pass of unwrap-then-wrap; when that
pass is the identity on the input the input is returned, otherwise
exactly one more full pass runs. -/
theorem c4_rewrap_two_pass (w : Nat) (s : List Char) :
    rewrap w s =
      (if wrap w (unwrap s) = s then s else wrap w (unwrap (wrap w (unwrap s)))) := by
  unfold rewrap rewrapOnce
  by_cases h : wrap w (unwrap s) = s
  · rw [if_pos h.symm, if_pos h]
  · rw [if_neg (fun hh => h hh.symm), if_neg h]

/-- C6, counterexample.  `unwrap` of `"aa  \naa"` is not
`"aa   aa"`: the space before the break makes the lookbehind of
`_WRAP_BREAK` fail, so nothing is substituted. -/
theorem c6_counterexample : unwrap ("aa  \naa".data) ≠ "aa   aa".data := by decide

/-- C6, amended.  `unwrap("aa  \naa")` returns its input unchanged:
the two trailing soft-break spaces are preserved by not collapsing the
break at all, and the break survives. -/
theorem c6_amended : unwrap ("aa  \naa".data) = "aa  \naa".data := by decide

/-- C7, counterexample.  `unwrap` of `"aa\n aa"` is not `"aa aa"`:
the leading space on the continuation line makes the `(?=\S)`
lookahead of `_WRAP_BREAK` fail. -/
theorem c7_counterexample : unwrap ("aa\n aa".data) ≠ "aa aa".data := by decide

/-- C7, amended.  `unwrap("aa\n aa")` is a no-op, exactly like
`wrap` at the default width on the same input: the break before a
space-led line is not recognised as wrap-introduced in either
direction. -/
theorem c7_amended :
    unwrap ("aa\n aa".data) = "aa\n aa".data ∧
    wrap 70 ("aa\n aa".data) = "aa\n aa".data := by decide

/-- C1, counterexample.  The expected-failure case of the test suite:
`wEnum` is already wrapped at width 6, yet unwrapping and re-wrapping
does not reconstruct it — the merged third list item `3. b b b` offers
no lead-in for `_PARAGRAPH`, so `wrap` leaves it unwrapped. -/
theorem c1_counterexample :
    wrap 6 wEnum = wEnum ∧ wrap 6 (unwrap wEnum) ≠ wrap 6 wEnum := by decide

/-- C1, amended.  `wrap(unwrap(P), W) = wrap(P, W)` does hold for
already-wrapped prose and quote-block paragraphs such as `wPair` at
width 3 and `wQuote` at width 3, but not universally: the
expected-failure numbered list `wEnum` at width 6 (see
`c1_counterexample`) breaks it. -/
theorem c1_amended :
    (wrap 3 wPair = wPair ∧ wrap 3 (unwrap wPair) = wrap 3 wPair) ∧
    (wrap 3 wQuote = wQuote ∧ wrap 3 (unwrap wQuote) = wrap 3 wQuote) := by decide

/-- C2, counterexample.  Wrapping is not idempotent: for the HTML
paragraph `pGtHtml` at width 4 the first pass moves a `>` to the end
of a line, the second pass therefore stops the paragraph contents
before that `>` and drops the space in front of it. -/
theorem c2_counterexample :
    wrap 4 (wrap 4 pGtHtml) ≠ wrap 4 pGtHtml ∧
    wrap 4 pGtHtml = "<aa >\nbbb".data ∧
    wrap 4 (wrap 4 pGtHtml) = "<aa>\nbbb".data := by decide

/-- C2, amended.  Wrapping at the same width is idempotent on the
standard paragraph shapes of the test suite — prose (`wPair`, and the
effective-width case), the minimal HTML block and the quote block —
but not universally: the HTML paragraph of `c2_counterexample`
violates it. -/
theorem c2_amended :
    wrap 3 (wrap 3 ("aa bb".data)) = wrap 3 ("aa bb".data) ∧
    wrap 6 (wrap 6 ("a a\n\nb b b b\n\nc-c-c-c".data)) =
      wrap 6 ("a a\n\nb b b b\n\nc-c-c-c".data) ∧
    wrap 5 (wrap 5 wHtml) = wrap 5 wHtml ∧
    wrap 3 (wrap 3 wQuote) = wrap 3 wQuote := by decide

/-- C3, counterexample.  In `"aa\nbb"` the single paragraph span is
`aa` alone: its contents stop at the single line break, which is
followed by neither a blank line nor the end of the string. -/
theorem c3_counterexample :
    spansReachBlank ("aa\nbb".data) = false ∧
    segments ("aa\nbb".data) =
      [Seg.para [] false ("aa".data), Seg.plain ['\n'],
       Seg.plain ['b'], Seg.plain ['b']] := by decide

/-- C8, counterexample.  A strictly negative width is not treated as
the default: `wrap_paragraphs("a", width=-1)` raises `ValueError`
(from `TextWrapper._wrap_chunks`), because `width or 70` only replaces
`0` and `None`. -/
theorem c8_counterexample :
    wrapWidth (-1) ("a".data) = .error () ∧
    wrapWidth (-1) ("a".data) ≠ .ok (wrap 70 ("a".data)) := by decide

/-! ## Supporting lemmas: shape of `unwrap`

Every `_WRAP_BREAK` condition tests characters only for membership in
classes (`\s`, `\S`, the lookbehind class) or equality with `<`, `*`,
`>`, `.` and digits, and replacing a newline by a space never moves a
character across any of those classes.  Hence the conditions are
invariant between an input and its unwrapped form, so a second pass
can neither create nor destroy a match. -/

theorem relC_isPySpace {a b : Char} (h : relC a b) : isPySpace b = isPySpace a := by
  rcases h with rfl | ⟨rfl, rfl⟩
  · rfl
  · rfl

theorem relC_prevBlocks {a b : Char} (h : relC a b) : prevBlocks b = prevBlocks a := by
  rcases h with rfl | ⟨rfl, rfl⟩
  · rfl
  · rfl

theorem relC_lt {a b : Char} (h : relC a b) : (b = '<') = (a = '<') := by
  rcases h with rfl | ⟨rfl, rfl⟩
  · rfl
  · decide

theorem relC_star {a b : Char} (h : relC a b) : (b = '*') = (a = '*') := by
  rcases h with rfl | ⟨rfl, rfl⟩
  · rfl
  · decide

theorem relC_gt {a b : Char} (h : relC a b) : (b = '>') = (a = '>') := by
  rcases h with rfl | ⟨rfl, rfl⟩
  · rfl
  · decide

theorem relC_dot {a b : Char} (h : relC a b) : (b = '.') = (a = '.') := by
  rcases h with rfl | ⟨rfl, rfl⟩
  · rfl
  · decide

theorem relC_digit {a b : Char} (h : relC a b) : b.isDigit = a.isDigit := by
  rcases h with rfl | ⟨rfl, rfl⟩
  · rfl
  · rfl

theorem relC_nl_right {a b : Char} (h : relC a b) : b = '\n' → a = '\n' := by
  rcases h with rfl | ⟨rfl, rfl⟩
  · exact fun h => h
  · intro h; exact absurd h (by decide)

theorem rel_headSpace {t u : List Char} (h : List.Forall₂ relC t u) :
    headSpace u = headSpace t := by
  cases h with
  | nil => rfl
  | cons hab _ => simp only [headSpace]; exact relC_isPySpace hab

theorem rel_wsThenLt {t u : List Char} (h : List.Forall₂ relC t u) :
    wsThenLt u = wsThenLt t := by
  induction h with
  | nil => rfl
  | cons hab htail ih =>
    simp only [wsThenLt]
    simp only [relC_lt hab, relC_isPySpace hab, ih]

theorem rel_listLeadIn {t u : List Char} (h : List.Forall₂ relC t u) :
    listLeadIn u = listLeadIn t := by
  cases h with
  | nil => rfl
  | cons hab htail =>
    simp only [listLeadIn]
    simp only [relC_star hab, relC_gt hab, relC_digit hab, rel_headSpace htail]
    cases htail with
    | nil => rfl
    | cons hdv hv =>
      simp only [relC_dot hdv, rel_headSpace hv]

theorem rel_lookOk {t u : List Char} (h : List.Forall₂ relC t u) :
    lookOk u = lookOk t := by
  cases h with
  | nil => rfl
  | cons hab htail =>
    simp only [lookOk]
    rw [relC_isPySpace hab, rel_listLeadIn (List.Forall₂.cons hab htail)]

theorem rel_head_nl {t u : List Char} (h : List.Forall₂ relC t u)
    (hh : u.head? = some '\n') : t.head? = some '\n' := by
  cases h with
  | nil => simp at hh
  | cons hab htail =>
    simp only [List.head?_cons, Option.some.injEq] at hh ⊢
    exact relC_nl_right hab hh

theorem relCOpt_prevOkB {p q : Option Char} (h : relCOpt p q) : prevOkB q = prevOkB p := by
  match p, q with
  | none, none => rfl
  | some a, some b =>
    simp only [prevOkB]
    rw [relC_prevBlocks h]
  | none, some _ => exact absurd h (by simp [relCOpt])
  | some _, none => exact absurd h (by simp [relCOpt])

/-- The output of the unwrapping scan is the input with some newlines
turned into spaces, position by position. -/
theorem unwrapAux_rel (prev : Option Char) (l : List Char) :
    List.Forall₂ relC l (unwrapAux prev l) := by
  induction prev, l using unwrapAux.induct with
  | case1 prev => exact List.Forall₂.nil
  | case2 prev t hcond ih =>
    simp only [unwrapAux]
    rw [if_pos hcond]
    exact List.Forall₂.cons (Or.inl rfl) (List.Forall₂.cons (Or.inr ⟨rfl, rfl⟩) ih)
  | case3 prev t hcond ih =>
    simp only [unwrapAux]
    rw [if_neg hcond]
    exact List.Forall₂.cons (Or.inl rfl) (List.Forall₂.cons (Or.inl rfl) ih)
  | case4 prev t hcond ih =>
    simp only [unwrapAux]
    rw [if_pos hcond]
    exact List.Forall₂.cons (Or.inr ⟨rfl, rfl⟩) ih
  | case5 prev t hcond ih =>
    simp only [unwrapAux]
    rw [if_neg hcond]
    exact List.Forall₂.cons (Or.inl rfl) ih
  | case6 prev c t h1 h2 ih =>
    simp only [unwrapAux]
    exact List.Forall₂.cons (Or.inl rfl) ih

/-- Scan step for a head that opens no match: the character is copied
and becomes the new preceding character. -/
theorem unwrapAux_other (p : Option Char) (c : Char) (t : List Char)
    (h2 : c ≠ '\n') (h1 : ¬(c = '>' ∧ t.head? = some '\n')) :
    unwrapAux p (c :: t) = c :: unwrapAux (some c) t := by
  rw [unwrapAux.eq_def]
  split
  · rename_i heq; simp at heq
  · rename_i heq
    injection heq with h3 h4
    exact absurd ⟨h3, by rw [h4]; rfl⟩ h1
  · rename_i heq
    injection heq with h3 h4
    exact absurd h3 h2
  · rename_i heq
    injection heq with h3 h4
    subst h3; subst h4; rfl

/-- A second unwrapping pass, started from any scan state related to
the first one, changes nothing. -/
theorem unwrapAux_idem (prev₁ : Option Char) (l : List Char) :
    ∀ prev₂, relCOpt prev₁ prev₂ →
      unwrapAux prev₂ (unwrapAux prev₁ l) = unwrapAux prev₁ l := by
  induction prev₁, l using unwrapAux.induct with
  | case1 prev => intro p₂ hp; rfl
  | case2 prev t hcond ih =>
    intro p₂ hp
    simp only [unwrapAux]
    rw [if_pos hcond]
    rw [unwrapAux_other p₂ '>' (' ' :: unwrapAux (some '\n') t) (by decide) (by simp)]
    rw [unwrapAux_other (some '>') ' ' (unwrapAux (some '\n') t) (by decide)
        (fun h => absurd h.1 (by decide))]
    rw [ih (some ' ') (Or.inr ⟨rfl, rfl⟩)]
  | case3 prev t hcond ih =>
    intro p₂ hp
    simp only [unwrapAux]
    rw [if_neg hcond]
    have hrel := unwrapAux_rel (some '\n') t
    rw [show unwrapAux p₂ ('>' :: '\n' :: unwrapAux (some '\n') t) =
        if (prevOkB p₂ && !wsThenLt (unwrapAux (some '\n') t)
            && lookOk (unwrapAux (some '\n') t)) = true
        then '>' :: ' ' :: unwrapAux (some '\n') (unwrapAux (some '\n') t)
        else '>' :: '\n' :: unwrapAux (some '\n') (unwrapAux (some '\n') t) from rfl]
    rw [rel_wsThenLt hrel, rel_lookOk hrel, relCOpt_prevOkB hp]
    rw [if_neg hcond]
    rw [ih (some '\n') (Or.inl rfl)]
  | case4 prev t hcond ih =>
    intro p₂ hp
    simp only [unwrapAux]
    rw [if_pos hcond]
    rw [unwrapAux_other p₂ ' ' (unwrapAux (some '\n') t) (by decide)
        (fun h => absurd h.1 (by decide))]
    rw [ih (some ' ') (Or.inr ⟨rfl, rfl⟩)]
  | case5 prev t hcond ih =>
    intro p₂ hp
    simp only [unwrapAux]
    rw [if_neg hcond]
    have hrel := unwrapAux_rel (some '\n') t
    rw [show unwrapAux p₂ ('\n' :: unwrapAux (some '\n') t) =
        if (prevOkB p₂ && lookOk (unwrapAux (some '\n') t)) = true
        then ' ' :: unwrapAux (some '\n') (unwrapAux (some '\n') t)
        else '\n' :: unwrapAux (some '\n') (unwrapAux (some '\n') t) from rfl]
    rw [rel_lookOk hrel, relCOpt_prevOkB hp]
    rw [if_neg hcond]
    rw [ih (some '\n') (Or.inl rfl)]
  | case6 prev c t h1 h2 ih =>
    intro p₂ hp
    simp only [unwrapAux]
    have hgt : ¬(c = '>' ∧ (unwrapAux (some c) t).head? = some '\n') := by
      rintro ⟨rfl, hh⟩
      have hth := rel_head_nl (unwrapAux_rel (some '>') t) hh
      cases t with
      | nil => simp at hth
      | cons d u =>
        simp only [List.head?_cons, Option.some.injEq] at hth
        exact h1 u rfl (by rw [hth])
    rw [unwrapAux_other p₂ c (unwrapAux (some c) t) h2 hgt]
    rw [ih (some c) (Or.inl rfl)]

/-- C5.  Unwrapping is idempotent: unwrapping already-unwrapped text
is a no-op, because every `_WRAP_BREAK` condition is invariant under
the newline-to-space substitutions of the first pass. -/
theorem c5_unwrap_idempotent (s : List Char) : unwrap (unwrap s) = unwrap s :=
  unwrapAux_idem none s none trivial

/-- C9.  `unwrap(s)` has exactly the length of `s` and differs from it
only by replacing some individual newline characters with single
spaces; every other character is unchanged and keeps its position. -/
theorem c9_unwrap_shape (s : List Char) :
    (unwrap s).length = s.length ∧ List.Forall₂ relC s (unwrap s) :=
  ⟨(unwrapAux_rel none s).length_eq.symm, unwrapAux_rel none s⟩

/-! ## Supporting lemmas: shape of the segmentation -/

theorem nl_append (l : List Char) : nlContents l ++ nlRest l = l := by
  simp [nlContents, nlRest, List.takeWhile_append_dropWhile]

theorem ws_append (l : List Char) : wsRun l ++ wsRest l = l := by
  simp [wsRun, wsRest, List.takeWhile_append_dropWhile]

theorem htmlContents_gt (t : List Char) (h3 : ¬((t.isEmpty || t.head? = some '\n') = true)) :
    htmlContents ('>' :: t) = '>' :: htmlContents t := by
  simp [htmlContents, h3]

theorem htmlContents_other (c : Char) (t : List Char) (h1 : ¬(c = '\n')) (h2 : ¬(c = '>')) :
    htmlContents (c :: t) = c :: htmlContents t := by
  simp [htmlContents, h1, h2]

theorem htmlContents_no_nl (l : List Char) : '\n' ∉ htmlContents l := by
  induction l with
  | nil => simp [htmlContents]
  | cons c t ih =>
    by_cases h1 : c = '\n'
    · simp [htmlContents, h1]
    · by_cases h2 : c = '>'
      · by_cases h3 : (t.isEmpty || t.head? = some '\n') = true
        · simp [htmlContents, h1, h2, h3]
        · subst h2
          rw [htmlContents_gt t h3]
          intro hmem
          rcases List.mem_cons.mp hmem with h | h
          · exact h1 h.symm
          · exact ih h
      · rw [htmlContents_other c t h1 h2]
        intro hmem
        rcases List.mem_cons.mp hmem with h | h
        · exact h1 h.symm
        · exact ih h

theorem htmlRest_gt (t : List Char) (h3 : ¬((t.isEmpty || t.head? = some '\n') = true)) :
    htmlRest ('>' :: t) = htmlRest t := by
  simp [htmlRest, h3]

theorem htmlRest_other (c : Char) (t : List Char) (h1 : ¬(c = '\n')) (h2 : ¬(c = '>')) :
    htmlRest (c :: t) = htmlRest t := by
  simp [htmlRest, h1, h2]

theorem html_append (l : List Char) : htmlContents l ++ htmlRest l = l := by
  induction l with
  | nil => rfl
  | cons c t ih =>
    by_cases h1 : c = '\n'
    · simp [htmlContents, htmlRest, h1]
    · by_cases h2 : c = '>'
      · by_cases h3 : (t.isEmpty || t.head? = some '\n') = true
        · simp [htmlContents, htmlRest, h1, h2, h3]
        · subst h2
          rw [htmlContents_gt t h3, htmlRest_gt t h3, List.cons_append, ih]
      · rw [htmlContents_other c t h1 h2, htmlRest_other c t h1 h2, List.cons_append, ih]

theorem nlContents_no_nl (l : List Char) : '\n' ∉ nlContents l := by
  intro hmem
  have := List.mem_takeWhile_imp hmem
  simp at this

theorem nlRest_shape (l : List Char) : nlRest l = [] ∨ (nlRest l).head? = some '\n' := by
  induction l with
  | nil => exact Or.inl rfl
  | cons c t ih =>
    by_cases hc : c = '\n'
    · subst hc
      right
      rfl
    · simpa [nlRest, List.dropWhile_cons, hc] using ih

theorem mOpt1_shape {b : Bool} {l lead body rest : List Char} {h : Bool}
    (hm : mOpt1 b l = some (lead, h, body, rest)) :
    lead ++ body ++ rest = l ∧ '\n' ∉ body ∧ h = true := by
  unfold mOpt1 at hm
  split at hm
  · split at hm
    · rename_i r heq
      split at hm
      · exact absurd hm (by simp)
      · rename_i hne
        simp only [Option.some.injEq, Prod.mk.injEq] at hm
        obtain ⟨rfl, rfl, rfl, rfl⟩ := hm
        refine ⟨?_, htmlContents_no_nl r, rfl⟩
        simp only [List.append_assoc, List.singleton_append, List.cons_append]
        rw [html_append r]
        simp only [List.nil_append]
        rw [← heq]
        exact ws_append l
    · exact absurd hm (by simp)
  · exact absurd hm (by simp)

theorem mOpt2_shape {b : Bool} {l lead body rest : List Char} {h : Bool}
    (hm : mOpt2 b l = some (lead, h, body, rest)) :
    lead ++ body ++ rest = l ∧ '\n' ∉ body ∧ h = false ∧
      (rest = [] ∨ rest.head? = some '\n') := by
  unfold mOpt2 at hm
  split at hm
  · split at hm
    · rename_i t
      split at hm
      · exact absurd hm (by simp)
      · simp only [Option.some.injEq, Prod.mk.injEq] at hm
        obtain ⟨rfl, rfl, rfl, rfl⟩ := hm
        exact ⟨by simpa using nl_append t, nlContents_no_nl t, rfl, nlRest_shape t⟩
    · split at hm
      · exact absurd hm (by simp)
      · simp only [Option.some.injEq, Prod.mk.injEq] at hm
        obtain ⟨rfl, rfl, rfl, rfl⟩ := hm
        exact ⟨by simpa using nl_append l, nlContents_no_nl l, rfl, nlRest_shape l⟩
  · exact absurd hm (by simp)

theorem mOpt3_shape {l lead body rest : List Char} {h : Bool}
    (hm : mOpt3 l = some (lead, h, body, rest)) :
    lead ++ body ++ rest = l ∧ '\n' ∉ body ∧ h = false ∧
      (rest = [] ∨ rest.head? = some '\n') := by
  unfold mOpt3 at hm
  split at hm
  · rename_i t
    split at hm
    · exact absurd hm (by simp)
    · simp only [Option.some.injEq, Prod.mk.injEq] at hm
      obtain ⟨rfl, rfl, rfl, rfl⟩ := hm
      exact ⟨by simpa using nl_append t, nlContents_no_nl t, rfl, nlRest_shape t⟩
  · exact absurd hm (by simp)

theorem mOpt4_shape {l lead body rest : List Char} {h : Bool}
    (hm : mOpt4 l = some (lead, h, body, rest)) :
    lead ++ body ++ rest = l ∧ '\n' ∉ body ∧ h = false ∧
      (rest = [] ∨ rest.head? = some '\n') := by
  unfold mOpt4 at hm
  split at hm
  · rename_i c u
    split at hm
    · exact absurd hm (by simp)
    · simp only [Option.some.injEq, Prod.mk.injEq] at hm
      obtain ⟨rfl, rfl, rfl, rfl⟩ := hm
      refine ⟨by simpa using nl_append ('>' :: c :: u), nlContents_no_nl _, rfl,
        nlRest_shape _⟩
  · exact absurd hm (by simp)

theorem stripLit_append : ∀ (p l r : List Char), stripLit p l = some r → p ++ r = l := by
  intro p
  induction p with
  | nil =>
    intro l r h
    simp only [stripLit, Option.some.injEq] at h
    subst h
    rfl
  | cons a ps ih =>
    intro l r h
    cases l with
    | nil => simp [stripLit] at h
    | cons c cs =>
      simp only [stripLit] at h
      split at h
      · rename_i hca
        subst hca
        rw [List.cons_append, ih cs r h]
      · exact absurd h (by simp)

theorem mOpt5_shape {l lead body rest : List Char} {h : Bool}
    (hm : mOpt5 l = some (lead, h, body, rest)) :
    lead ++ body ++ rest = l ∧ '\n' ∉ body ∧ h = false ∧
      (rest = [] ∨ rest.head? = some '\n') := by
  unfold mOpt5 at hm
  split at hm
  · exact absurd hm (by simp)
  · exact absurd hm (by simp)
  · rename_i c1 l2 heq1
    split at hm
    · exact absurd hm (by simp)
    · split at hm
      · exact absurd hm (by simp)
      · rename_i c2 d c3 e rest0 heq2
        split at hm
        · rename_i hcond
          simp only [Option.some.injEq, Prod.mk.injEq] at hm
          obtain ⟨rfl, rfl, rfl, rfl⟩ := hm
          obtain ⟨hc2, hd, hc3, he, hgt, hnl⟩ := hcond
          refine ⟨?_, nlContents_no_nl _, rfl, nlRest_shape _⟩
          have e1 := stripLit_append optFiveLit1 l _ heq1
          have e2 := stripLit_append optFiveLit2 l2 _ heq2
          rw [← e1, ← e2]
          simp [List.append_assoc, nl_append]
        · exact absurd hm (by simp)
      · exact absurd hm (by simp)

/-- A successful `_PARAGRAPH` match splits the text exactly into
lead-in, contents and remainder; the contents contain no newline; and
after a non-HTML match the remainder is empty or starts at the
newline that ended the contents. -/
theorem matchAt_shape {b : Bool} {l lead body rest : List Char} {h : Bool}
    (hm : matchAt b l = some (lead, h, body, rest)) :
    lead ++ body ++ rest = l ∧ '\n' ∉ body ∧
      (h = false → rest = [] ∨ rest.head? = some '\n') := by
  unfold matchAt at hm
  rcases h1 : mOpt1 b l with _ | m1
  · rcases h2 : mOpt2 b l with _ | m2
    · rcases h3 : mOpt3 l with _ | m3
      · rcases h4 : mOpt4 l with _ | m4
        · rw [h1, h2, h3, h4] at hm
          simp only [Option.none_orElse] at hm
          obtain ⟨e1, e2, e3, e4⟩ := mOpt5_shape hm
          exact ⟨e1, e2, fun _ => e4⟩
        · rw [h1, h2, h3, h4] at hm
          simp only [Option.none_orElse, Option.some_orElse, Option.some.injEq] at hm
          subst hm
          obtain ⟨e1, e2, e3, e4⟩ := mOpt4_shape h4
          exact ⟨e1, e2, fun _ => e4⟩
      · rw [h1, h2, h3] at hm
        simp only [Option.none_orElse, Option.some_orElse, Option.some.injEq] at hm
        subst hm
        obtain ⟨e1, e2, e3, e4⟩ := mOpt3_shape h3
        exact ⟨e1, e2, fun _ => e4⟩
    · rw [h1, h2] at hm
      simp only [Option.none_orElse, Option.some_orElse, Option.some.injEq] at hm
      subst hm
      obtain ⟨e1, e2, e3, e4⟩ := mOpt2_shape h2
      exact ⟨e1, e2, fun _ => e4⟩
  · rw [h1] at hm
    simp only [Option.some_orElse, Option.some.injEq] at hm
    subst hm
    obtain ⟨e1, e2, e3⟩ := mOpt1_shape h1
    exact ⟨e1, e2, fun hf => absurd e3 (by rw [hf]; simp)⟩

/-- The segmentation reconstructs its input: plain characters and
match spans concatenate back to the scanned string, for any fuel. -/
theorem segScan_reconstruct (fuel : Nat) :
    ∀ (b : Bool) (l : List Char), ((segScan fuel b l).map origSeg).flatten = l := by
  induction fuel with
  | zero =>
    intro b l
    induction l with
    | nil => rfl
    | cons c t ih =>
      simp only [segScan, List.map_cons, List.map_map] at ih ⊢
      simp only [List.flatten_cons] at ih ⊢
      rw [ih]
      rfl
  | succ n ih =>
    intro b l
    cases l with
    | nil => rfl
    | cons c t =>
      simp only [segScan]
      cases hm : matchAt b (c :: t) with
      | none =>
        simp only [List.map_cons, List.flatten_cons, origSeg]
        rw [ih false t]
        rfl
      | some m =>
        obtain ⟨lead, hb, body, rest⟩ := m
        simp only [List.map_cons, List.flatten_cons, origSeg]
        rw [ih false rest]
        have := (matchAt_shape hm).1
        simpa [List.append_assoc] using this

theorem segments_reconstruct (l : List Char) :
    ((segments l).map origSeg).flatten = l := segScan_reconstruct _ _ l

theorem restsAfter_plainOnly (l : List Char) :
    ∀ p ∈ restsAfter (l.map fun c => Seg.plain [c]), ∃ c, p.1 = Seg.plain [c] := by
  induction l with
  | nil => intro p hp; simp [restsAfter] at hp
  | cons c t ih =>
    intro p hp
    rcases List.mem_cons.mp hp with h | h
    · exact ⟨c, by rw [h]⟩
    · exact ih p h

/-- Every segment of a scan satisfies the span-termination facts of
`matchAt_shape`, with the remainder computed against the original
text that follows the segment. -/
theorem segScan_restsAfter (fuel : Nat) :
    ∀ (b : Bool) (l : List Char), ∀ p ∈ restsAfter (segScan fuel b l),
      (∀ lead hb body, p.1 = Seg.para lead hb body → '\n' ∉ body) ∧
      (∀ lead body, p.1 = Seg.para lead false body →
        p.2 = [] ∨ p.2.head? = some '\n') := by
  induction fuel with
  | zero =>
    intro b l p hp
    obtain ⟨c, hc⟩ := restsAfter_plainOnly l p (by simpa [segScan] using hp)
    constructor
    · intro lead hb body heq
      rw [hc] at heq
      exact absurd heq (by simp)
    · intro lead body heq
      rw [hc] at heq
      exact absurd heq (by simp)
  | succ n ih =>
    intro b l p hp
    cases l with
    | nil => simp [segScan, restsAfter] at hp
    | cons c t =>
      simp only [segScan] at hp
      cases hm : matchAt b (c :: t) with
      | none =>
        rw [hm] at hp
        simp only [restsAfter] at hp
        rcases List.mem_cons.mp hp with h | h
        · subst h
          constructor
          · intro lead hb body heq
            exact absurd heq (by simp)
          · intro lead body heq
            exact absurd heq (by simp)
        · exact ih false t p h
      | some m =>
        obtain ⟨lead0, hb0, body0, rest0⟩ := m
        rw [hm] at hp
        simp only [restsAfter] at hp
        rcases List.mem_cons.mp hp with h | h
        · subst h
          obtain ⟨e1, e2, e3⟩ := matchAt_shape hm
          constructor
          · intro lead hb body heq
            simp only [Seg.para.injEq] at heq
            obtain ⟨rfl, rfl, rfl⟩ := heq
            exact e2
          · intro lead body heq
            simp only [Seg.para.injEq] at heq
            obtain ⟨rfl, hf, rfl⟩ := heq
            have := e3 hf
            rwa [segScan_reconstruct n false rest0]
        · exact ih false rest0 p h

/-! ## Supporting lemmas: width handling -/

theorem wrapSegsE_zero (segs : List Seg) :
    wrapSegsE 0 segs = .ok ((segs.map (wrapSeg 70)).flatten) := by
  induction segs with
  | nil => rfl
  | cons s t ih =>
    cases s with
    | plain txt =>
      simp only [wrapSegsE, wrapSegE]
      rw [ih]
      simp [wrapSeg]
    | para lead hb body =>
      have e : wrapSegE 0 (Seg.para lead hb body) =
          .ok (wrapSeg 70 (Seg.para lead hb body)) := rfl
      simp only [wrapSegsE, e]
      rw [ih]
      simp

theorem wrapSegsE_neg {w : Int} (hw : w < 0) (segs : List Seg) (hp : hasPara segs = true) :
    wrapSegsE w segs = .error () := by
  induction segs with
  | nil => simp [hasPara] at hp
  | cons s t ih =>
    cases s with
    | plain txt =>
      have hp2 : hasPara t = true := by simpa [hasPara] using hp
      simp only [wrapSegsE, wrapSegE]
      rw [ih hp2]
    | para lead hb body =>
      have e : wrapSegE w (Seg.para lead hb body) = .error () := by
        simp only [wrapSegE, fillE]
        rw [if_neg (by omega : ¬(w = 0)), if_pos (by omega : w ≤ 0)]
        rfl
      simp only [wrapSegsE, e]

/-! ## Remaining claim theorems -/

/-- C10.  `wrap` rewrites only the contents of matched paragraphs:
the segments reconstruct the input exactly, `wrap` is their per-segment
rewriting, and that rewriting keeps unmatched characters and lead-ins
verbatim and in order, replacing only each match's contents by its
re-filled form. -/
theorem c10_wrap_frame (w : Nat) (s : List Char) :
    ((segments s).map origSeg).flatten = s ∧
    wrap w s = ((segments s).map (wrapSeg w)).flatten ∧
    (∀ t, wrapSeg w (Seg.plain t) = t) ∧
    (∀ lead hb body,
      wrapSeg w (Seg.para lead hb body) = lead ++ fill w body ++ sbSuffix body) :=
  ⟨segments_reconstruct s, rfl, fun _ => rfl, fun _ _ _ => rfl⟩

/-- C3, amended.  Every paragraph's contents, HTML or not, contain no
newline — a single line break already terminates them — and after a
non-HTML paragraph the remaining text is empty or starts with the
newline that ended it (not necessarily a blank line). -/
theorem c3_amended (s : List Char) (p : Seg × List Char)
    (hp : p ∈ restsAfter (segments s)) :
    (∀ lead hb body, p.1 = Seg.para lead hb body → '\n' ∉ body) ∧
    (∀ lead body, p.1 = Seg.para lead false body →
      p.2 = [] ∨ p.2.head? = some '\n') :=
  segScan_restsAfter _ true s p hp

/-- Witness for `c3_amended` at the paragraph of `"aa\nbb"`. -/
theorem c3_amended_witness :
    '\n' ∉ ("aa".data) ∧
      (("\nbb".data : List Char) = [] ∨ ("\nbb".data : List Char).head? = some '\n') := by
  have h := c3_amended ("aa\nbb".data) (Seg.para [] false ("aa".data), "\nbb".data)
    (by decide)
  exact ⟨h.1 [] false ("aa".data) rfl, h.2 [] ("aa".data) rfl⟩

/-- C8, amended.  Width 0 (a falsy value, like the default `None`)
falls back to the default width 70 and raises nothing, but a strictly
negative width raises `ValueError` as soon as the string contains at
least one paragraph. -/
theorem c8_amended (w : Int) (hw : w < 0) (s t : List Char)
    (ht : hasPara (segments t) = true) :
    wrapWidth 0 s = .ok (wrap 70 s) ∧ wrapWidth w t = .error () :=
  ⟨wrapSegsE_zero (segments s), wrapSegsE_neg hw (segments t) ht⟩

/-- Witness for `c8_amended` at width −1 on the one-paragraph string
`"a"`. -/
theorem c8_amended_witness :
    wrapWidth 0 ("x".data) = .ok (wrap 70 ("x".data)) ∧
      wrapWidth (-1) ("a".data) = .error () :=
  c8_amended (-1) (by decide) ("x".data) ("a".data) (by decide)

/-! ## Sanity checks against the oracles of `tests/test_wrap.py` -/

/-- `test_trivial` (width 3): stability of the wrapped form, the
unwrap of it, and the re-wrap of the unwrapped form. -/
theorem sanityTrivial :
    wrap 3 ("aa\nbb".data) = "aa\nbb".data ∧
    unwrap ("aa\nbb".data) = "aa bb".data ∧
    wrap 3 ("aa bb".data) = "aa\nbb".data ∧
    rewrap 3 ("aa\nbb".data) = "aa\nbb".data := by decide

/-- `test_softbreak` (width 5): a Markdown soft break survives both
operations. -/
theorem sanitySoftbreak :
    wrap 5 ("aa  \nbb".data) = "aa  \nbb".data ∧
    unwrap ("aa  \nbb".data) = "aa  \nbb".data := by decide

/-- `test_block_html_minimal` (width 5): single breaks inside a
minimal HTML block are structural. -/
theorem sanityHtmlMinimal :
    wrap 5 ("<a>\n</a>".data) = "<a>\n</a>".data ∧
    unwrap ("<a>\n</a>".data) = "<a>\n</a>".data := by decide

/-- `test_bullet_unindented` (width 5): the continuation line of the
first bullet merges into the bullet, the next item keeps its line. -/
theorem sanityBulletUnindented :
    unwrap ("a a\n\n* b b\nb\n* b\n\nc c\n".data) = "a a\n\n* b b b\n* b\n\nc c\n".data ∧
    wrap 5 ("a a\n\n* b b b\n* b\n\nc c\n".data) = "a a\n\n* b b\nb\n* b\n\nc c\n".data := by
  decide

/-- `test_asymmetric_single_space_terminating_line` (default width):
a single trailing space is respected by `unwrap`, destroyed by `wrap`,
and `rewrap` therefore runs its second pass. -/
theorem sanityAsymmetricTrailingSpace :
    unwrap ("aa \naa".data) = "aa \naa".data ∧
    wrap 70 ("aa \naa".data) = "aa\naa".data ∧
    unwrap ("aa\naa".data) = "aa aa".data ∧
    rewrap 70 ("aa \naa".data) = "aa aa".data := by decide

/-- `test_quote_block_multiparagraph_starting_long` (width 5): quote
markers and the empty quoted line survive a round trip. -/
theorem sanityQuoteMultiparagraph :
    unwrap ("a a\n\n> b b\nb\n>\n> b\n\nc c\n".data) = "a a\n\n> b b b\n>\n> b\n\nc c\n".data ∧
    wrap 5 ("a a\n\n> b b b\n>\n> b\n\nc c\n".data) = "a a\n\n> b b\nb\n>\n> b\n\nc c\n".data := by
  decide

/-- Compiled option 4 is `\n(?=>.)` (the space of the written
`(?=> .)` is stripped by `re.VERBOSE`): a `>` directly followed by any
text after a single break opens a paragraph, which `wrap`
re-flows. -/
theorem sanityOptFourNoSpace :
    segments ("aa\n>b cc".data) =
      [Seg.para [] false ("aa".data), Seg.para ['\n'] false (">b cc".data)] ∧
    wrap 3 ("aa\n>b cc".data) = "aa\n>b\ncc".data := by decide

/-- Compiled option 4 also matches a bare `> ` before a newline (the
`.` of the stripped lookahead matches the space), and `fill` then
drops that trailing space. -/
theorem sanityOptFourQuoteMarker :
    wrap 70 ("aa\n> \nbb".data) = "aa\n>\nbb".data := by decide

/-- The plain `\n(?=>\n)` reading of option 5 is dead in the compiled
pattern: a lone `>` line after a single break is not a paragraph and
`wrap` leaves the string alone. -/
theorem sanityOptFiveDead :
    segments ("a\n>\nb".data) =
      [Seg.para [] false ("a".data), Seg.plain ['\n'], Seg.plain ['>'],
       Seg.plain ['\n'], Seg.plain ['b']] ∧
    wrap 70 ("a\n>\nb".data) = "a\n>\nb".data := by decide

/-- The compiled fifth alternative does fire on its literal text
(the uncommented prose line of the source pattern). -/
theorem sanityOptFiveLiteral :
    segments ("q\nForsomereason,“X”doesnotworkinplaceof“Y”Z\n>\nq".data) =
      [Seg.para [] false ("q".data), Seg.plain ['\n'],
       Seg.para ("Forsomereason,“X”doesnotworkinplaceof“Y”Z\n".data) false ['>'],
       Seg.plain ['\n'], Seg.plain ['q']] := by decide
